import Mathlib

/-!
Verification of the extract-service (`app/main.py`): a shallow embedding of
the URL-validation, fetch, and text-normalization pipeline, with theorems
settling the specification claims.

Python strings are modelled as `String` (for the URL/auth layer) or
`List Char` (for the text pipeline); machine integers are `Int`/`Nat`;
fallible code returns `Except HttpError`.  Calls into the Python standard
library (`urlparse`, `ipaddress`, `socket.getaddrinfo`, `bytes.decode`)
are modelled as oracle parameters, since they are external to the
repository; everything else is translated from the source.
-/

namespace ExtractService

/-- The ASCII whitespace characters recognised by Python's `str.strip()`
and by `\s` in the patterns the source uses (restricted to ASCII, which is
all the pipeline relies on). -/
def pyWs (c : Char) : Bool :=
  c == ' ' || c == '\t' || c == '\n' || c == '\r' || c == '\x0b' || c == '\x0c'

/-- Python `str.lstrip()` on a list of characters. -/
def pyLstrip (l : List Char) : List Char := l.dropWhile pyWs

/-- Python `str.rstrip()` on a list of characters. -/
def pyRstrip (l : List Char) : List Char := l.rdropWhile pyWs

/-- Python `str.strip()` on a list of characters. -/
def pyStrip (l : List Char) : List Char := pyRstrip (pyLstrip l)

/-- Python `str.strip()` on a `String`. -/
def pyStripS (s : String) : String := String.mk (pyStrip s.toList)

/-- Python `str.lower()` (ASCII case folding, which is all the source's
host names need). -/
def pyLowerS (s : String) : String := String.mk (s.toList.map Char.toLower)

/-- Python `str.endswith(suffix)`. -/
def endsWithS (s suffix : String) : Bool := suffix.toList.isSuffixOf s.toList

/-- The string appended by `_apply_limits` when truncating (main.py
line 414): `"\n\n（内容过长已截断）"` — the truncation marker on its own
paragraph. -/
def TRUNC_MARKER : List Char :=
  ['\n', '\n', '（', '内', '容', '过', '长', '已', '截', '断', '）']

/-- Model of `_apply_limits` (main.py lines 411-415): strip; if longer than 12000
characters, truncate to the first 12000, right-strip, and append the
truncation marker. -/
def apply_limits (text : List Char) : List Char :=
  if (pyStrip text).length > 12000 then
    pyRstrip ((pyStrip text).take 12000) ++ TRUNC_MARKER
  else pyStrip text

/-! ## `_dedupe_blocks` (main.py lines 361-373)

`text.split("\n\n")`, the whitespace-collapsing regex substitution, and
`"\n\n".join(...)` are modelled directly on `List Char`. -/

/-- Prepend a character to the first segment of a split result (the
recursive step of scanning for the next `"\n\n"` separator). -/
def consHead (c : Char) : List (List Char) → List (List Char)
  | [] => [[c]]
  | s :: ss => (c :: s) :: ss

/-- Python `text.split("\n\n")`: greedy left-to-right scan for
non-overlapping occurrences of the two-newline separator. -/
def splitOn2NL : List Char → List (List Char)
  | [] => [[]]
  | [c] => [[c]]
  | c :: d :: rest =>
    if c = '\n' ∧ d = '\n' then [] :: splitOn2NL rest
    else consHead c (splitOn2NL (d :: rest))

/-- Python `"\n\n".join(blocks)`. -/
def join2NL : List (List Char) → List Char
  | [] => []
  | [b] => b
  | b :: bs => b ++ '\n' :: '\n' :: join2NL bs

/-- Model of `re.sub(r"\s+", " ", b)`: every maximal whitespace run becomes one
space.  The flag records whether the previous character was whitespace
(i.e. whether we are inside a run already replaced). -/
def collapseWsAux : Bool → List Char → List Char
  | _, [] => []
  | prevWs, c :: rest =>
    if pyWs c then
      if prevWs then collapseWsAux true rest
      else ' ' :: collapseWsAux true rest
    else c :: collapseWsAux false rest

/-- Model of `re.sub(r"\s+", " ", b)` on a whole block. -/
def collapseWs (l : List Char) : List Char := collapseWsAux false l

/-- The folded key `re.sub(r"\s+", " ", b).strip().lower()` (main.py line 368). -/
def blockKey (b : List Char) : List Char :=
  (pyStrip (collapseWs b)).map Char.toLower

/-- The `for b in blocks` loop of `_dedupe_blocks`: skip empty blocks,
skip blocks with an empty or already-seen key, otherwise record the key
and keep the block (in order). -/
def dedupeLoop (seen : List (List Char)) (acc : List (List Char)) :
    List (List Char) → List (List Char)
  | [] => acc.reverse
  | b :: bs =>
    if b = [] then dedupeLoop seen acc bs
    else
      if blockKey b = [] ∨ blockKey b ∈ seen then dedupeLoop seen acc bs
      else dedupeLoop (blockKey b :: seen) (b :: acc) bs

/-- Model of `_dedupe_blocks` (main.py lines 361-373): split on `"\n\n"`, strip
each block, keep the first block for each non-empty folded key, join with
`"\n\n"`, strip. -/
def dedupe_blocks (text : List Char) : List Char :=
  pyStrip (join2NL (dedupeLoop [] [] ((splitOn2NL text).map pyStrip)))

/-- An `HTTPException(status_code, detail)` as raised by `app/main.py`. -/
structure HttpError where
  status : Nat
  detail : String
deriving DecidableEq, Repr

/-- The error `HTTPException(status_code=422, detail="Invalid url")`. -/
def invalidUrl : HttpError := ⟨422, "Invalid url"⟩

deriving instance DecidableEq for Except

/-! ## `_check_api_key` (main.py lines 58-63)

`API_KEY = (os.getenv("EXTRACT_API_KEY") or "").strip()` at module load;
the check compares the stripped `x-api-key` header against it. -/

/-- Model of `_check_api_key`, parameterised by the raw `EXTRACT_API_KEY`
environment value and the optional `x-api-key` request header. -/
def check_api_key (api_key_env : String) (header : Option String) : Except HttpError Unit :=
  let API_KEY := pyStripS api_key_env
  if API_KEY = "" then .ok ()
  else
    let got := pyStripS (header.getD "")
    if got ≠ API_KEY then .error ⟨401, "unauthorized"⟩ else .ok ()

/-! ## `_parse_timeout_s` (main.py lines 66-72) and the derived timeouts

`raw` is `none` when the requested timeout is absent or unparseable
(`int(raw)` raised), in which case the default applies. -/

/-- Model of `_parse_timeout_s(raw, default_s)`: parse then clamp to `[1, 180]`,
then cap at 60. -/
def parse_timeout_s (raw : Option Int) (default_s : Int) : Int :=
  let t := raw.getD default_s
  let t := max 1 (min 180 t)
  min 60 t

/-- The connect timeout `min(5, timeout_s)` from `_fetch_html`
(main.py line 207). -/
def connect_timeout_s (timeout_s : Int) : Int := min 5 timeout_s

/-- The value `min(3, timeout_s)` passed to `socket.setdefaulttimeout` during the
DNS check in `_validate_public_http_url` (main.py line 121). -/
def dns_timeout_s (timeout_s : Int) : Int := min 3 timeout_s

/-- The spec's FetchBudget clamp: `clamp(requestedTimeoutSeconds, 1, 180)`. -/
def specClamp (x lo hi : Int) : Int := max lo (min hi x)

/-! ## The streamed fetch `_fetch_html` (main.py lines 199-241)

The network and decoding are external; the body-reading loop over
`r.iter_content` chunks (a list of byte chunks) and the size cap are
translated from the source.  `MAX_HTML_BYTES` keeps its default. -/

/-- The constant `MAX_HTML_BYTES` (main.py line 20, default `"5000000"`). -/
def MAX_HTML_BYTES : Nat := 5000000

/-- The `for chunk in r.iter_content(...)` loop of `_fetch_html`:
skip empty chunks, extend `buf`, abort with 502 "html too large" once
`len(buf) > MAX_HTML_BYTES`. -/
def readBodyLoop (buf : List Nat) : List (List Nat) → Except HttpError (List Nat)
  | [] => .ok buf
  | c :: cs =>
    if c = [] then readBodyLoop buf cs
    else
      let buf' := buf ++ c
      if buf'.length > MAX_HTML_BYTES then .error ⟨502, "fetch failed: html too large"⟩
      else readBodyLoop buf' cs

/-- The body accumulation of `_fetch_html`, starting from an empty
`bytearray`. -/
def readBody (chunks : List (List Nat)) : Except HttpError (List Nat) :=
  readBodyLoop [] chunks

/-- The tail of `_fetch_html` after a successful (status < 400) response:
accumulate the body, decode (`errors="replace"`, modelled as the total
oracle `decode`), strip, and reject an empty result.  The earlier
transport/redirect/status failures are upstream of the claims about this
function. -/
def fetch_html_body (decode : List Nat → List Char) (chunks : List (List Nat)) :
    Except HttpError (List Char) :=
  match readBody chunks with
  | .error e => .error e
  | .ok buf =>
    let html := pyStrip (decode buf)
    if html = [] then .error ⟨502, "fetch failed: empty html"⟩ else .ok html

/-! ## `_fetch_html_best_effort` (main.py lines 244-252) -/

/-- A Python exception as seen by `_fetch_html_best_effort`: either an
`HTTPException` or any other exception (e.g. the `RuntimeError` raised
when playwright is unavailable). -/
inductive PyErr where
  | http (e : HttpError)
  | exc (msg : String)
deriving DecidableEq, Repr

/-- Model of `_fetch_html_best_effort`: run the rendered fetch; re-raise an
`HTTPException` with status 504, otherwise fall back to the streamed
fetch, whose own result (value or error) is returned.  The two fetches
are external effects, modelled by their outcomes. -/
def fetch_html_best_effort (rendered streamed : Except PyErr String) : Except PyErr String :=
  match rendered with
  | .ok html => .ok html
  | .error (.http e) => if e.status = 504 then .error (.http e) else streamed
  | .error (.exc _) => streamed

end ExtractService

namespace ExtractService

/-! ## `_validate_public_http_url` (main.py lines 97-136)

`urlparse`, `ipaddress.ip_address` / `.is_global`, and
`socket.getaddrinfo` are Python-stdlib externals, modelled as oracles in
`NetWorld`; the control flow, host policy and socket-default-timeout
manipulation are translated from the source. -/

/-- The result of `urllib.parse.urlparse` as consumed by the source:
`scheme`, `netloc`, `username`/`password` (None, empty or non-empty),
`hostname` (already bracket-stripped) and `port`. -/
structure ParsedURL where
  scheme : String
  netloc : String
  username : Option String
  password : Option String
  hostname : Option String
  port : Option Nat
deriving DecidableEq, Repr

/-- Oracles for the Python stdlib networking calls:
`ip_parses s` models `ipaddress.ip_address(s)` succeeding; `is_global s`
models the parsed address's `is_global` attribute; `getaddrinfo h p`
models `socket.getaddrinfo(h, p, type=SOCK_STREAM)`, `none` meaning it
raised, `some ips` the list of resolved address strings. -/
structure NetWorld where
  urlparse : String → ParsedURL
  ip_parses : String → Bool
  is_global : String → Bool
  getaddrinfo : String → Nat → Option (List String)

/-- Python truthiness of an `Optional[str]`: `None` and `""` are falsy. -/
def pyTruthyOpt : Option String → Bool
  | none => false
  | some s => s ≠ ""

/-- Model of `_is_public_ip` (main.py lines 89-94): parse the address, returning
`False` on failure, else its `is_global` flag. -/
def is_public_ip (w : NetWorld) (ip : String) : Bool :=
  if w.ip_parses ip then w.is_global ip else false

/-- Strip all leading/trailing occurrences of the character `c`
(Python `str.strip(c)` for a single-character argument). -/
def stripChar (c : Char) (l : List Char) : List Char :=
  (l.dropWhile (· == c)).rdropWhile (· == c)

/-- The stripping `(raw_url or "").strip().strip("\x60").strip("\x22").strip("\x27")`
(main.py line 98): whitespace, then backtick, double quote and single
quote, stripped in that order. -/
def stripUrlCandidate (raw : String) : String :=
  String.mk (stripChar (Char.ofNat 39) (stripChar (Char.ofNat 34)
    (stripChar (Char.ofNat 96) (pyStrip raw.toList))))

/-- The host `hostname = (p.hostname or "").strip().lower()` (main.py line 106). -/
def hostStr (p : ParsedURL) : String :=
  pyLowerS (pyStripS (p.hostname.getD ""))

/-- The port `p.port or (443 if p.scheme == "https" else 80)`
(main.py line 123); a port of `0` is falsy in Python. -/
def portOf (p : ParsedURL) : Nat :=
  let dflt := if p.scheme = "https" then 443 else 80
  match p.port with
  | some n => if n = 0 then dflt else n
  | none => dflt

/-- The observable outcome of `_validate_public_http_url`: the returned
value or raised `HTTPException`, the process-wide socket default timeout
after the call (Python `socket.getdefaulttimeout()`), and the default
timeout in effect during the `getaddrinfo` call (`none` when no DNS
lookup happened). -/
structure ValidateOutcome where
  result : Except HttpError String
  socketTimeoutAfter : Option Int
  timeoutDuringDns : Option (Option Int)
deriving DecidableEq, Repr

/-- The `getaddrinfo` loop of `_validate_public_http_url` (main.py lines
124-132): resolution failure is 422; any resolved non-public address is
422; otherwise the (stripped) URL string is returned. -/
def addrinfoCheck (w : NetWorld) (res : Option (List String)) (s : String) :
    Except HttpError String :=
  match res with
  | none => .error invalidUrl
  | some infos =>
    if infos.any (fun ip => !is_public_ip w ip) then .error invalidUrl
    else .ok s

/-- The DNS phase applied to the oracle's answer for the host and port. -/
def dnsResolveCheck (w : NetWorld) (hostname : String) (port : Nat) (s : String) :
    Except HttpError String :=
  addrinfoCheck w (w.getaddrinfo hostname port) s

/-- Model of `_validate_public_http_url(raw_url, timeout_s)` run with the
process-wide socket default timeout initially `st0`.  The DNS phase sets
the default timeout to `min(3, timeout_s)`, performs `getaddrinfo`, and
restores the old value in a `finally` block on every exit path. -/
def validate_public_http_url (w : NetWorld) (raw_url : String) (timeout_s : Int)
    (st0 : Option Int) : ValidateOutcome :=
  let s := stripUrlCandidate raw_url
  let p := w.urlparse s
  if ¬(p.scheme = "http" ∨ p.scheme = "https") then ⟨.error invalidUrl, st0, none⟩
  else if p.netloc = "" ∨ pyTruthyOpt p.username ∨ pyTruthyOpt p.password then
    ⟨.error invalidUrl, st0, none⟩
  else
    let hostname := hostStr p
    if hostname = "" then ⟨.error invalidUrl, st0, none⟩
    else if hostname = "localhost" ∨ endsWithS hostname ".localhost" ∨
        endsWithS hostname ".local" then ⟨.error invalidUrl, st0, none⟩
    else if is_public_ip w hostname then ⟨.ok s, st0, none⟩
    else if w.ip_parses hostname then ⟨.error invalidUrl, st0, none⟩
    else
      -- DNS check: old = getdefaulttimeout(); setdefaulttimeout(min(3, timeout_s));
      -- try getaddrinfo; finally setdefaulttimeout(old).
      let old := st0
      let stDuring : Option Int := some (dns_timeout_s timeout_s)
      let res : Except HttpError String := dnsResolveCheck w hostname (portOf p) s
      ⟨res, old, some stDuring⟩

/-- The parsed URL of the (stripped) candidate. -/
def pOf (w : NetWorld) (raw : String) : ParsedURL := w.urlparse (stripUrlCandidate raw)

/-- The lower-cased, stripped hostname of the candidate. -/
def hOf (w : NetWorld) (raw : String) : String := hostStr (pOf w raw)

/-! ## Theorems: C10 and C6 -/

/-- C10: the authentication check raises Unauthorized (401) iff a
non-empty API key is configured and the whitespace-trimmed `x-api-key`
header value differs from it; with no configured key every request
passes. -/
theorem check_api_key_iff (api_key_env : String) (header : Option String) :
    (check_api_key api_key_env header = .error ⟨401, "unauthorized"⟩ ↔
      pyStripS api_key_env ≠ "" ∧ pyStripS (header.getD "") ≠ pyStripS api_key_env) ∧
    (pyStripS api_key_env = "" → check_api_key api_key_env header = .ok ()) := by
  unfold check_api_key
  constructor
  · constructor
    · intro h
      by_cases hk : pyStripS api_key_env = ""
      · simp [hk] at h
      · simp only [if_neg hk] at h
        by_cases hg : pyStripS (header.getD "") ≠ pyStripS api_key_env
        · exact ⟨hk, hg⟩
        · simp [hg] at h
    · rintro ⟨hk, hg⟩
      simp [hk, hg]
  · intro hk
    simp [hk]

/-- C10 witness: with key `"k"` configured and header `" k "`, the check
passes (the header is trimmed before comparison); with header `"bad"` it
fails with 401. -/
theorem check_api_key_iff_witness :
    check_api_key "k" (some "bad") = .error ⟨401, "unauthorized"⟩ ∧
    check_api_key "" (some "anything") = .ok () := by
  refine ⟨?_, (check_api_key_iff "" (some "anything")).2 (by decide)⟩
  exact ((check_api_key_iff "k" (some "bad")).1).2 (by decide)

/-- The body loop either aborts with "html too large" (when the total
byte count exceeds the cap) or returns the full accumulated buffer. -/
theorem readBodyLoop_eq (cs : List (List Nat)) :
    ∀ buf : List Nat, buf.length ≤ MAX_HTML_BYTES →
      readBodyLoop buf cs =
        if buf.length + cs.flatten.length > MAX_HTML_BYTES then
          .error ⟨502, "fetch failed: html too large"⟩
        else .ok (buf ++ cs.flatten) := by
  induction cs with
  | nil =>
    intro buf hbuf
    simp [readBodyLoop, Nat.not_lt.mpr hbuf]
  | cons c cs ih =>
    intro buf hbuf
    by_cases hc : c = []
    · subst hc
      simpa [readBodyLoop] using ih buf hbuf
    · rw [readBodyLoop, if_neg hc]
      by_cases hlen : (buf ++ c).length > MAX_HTML_BYTES
      · rw [if_pos hlen, if_pos]
        simp only [List.length_append] at hlen ⊢
        simp only [List.flatten_cons, List.length_append]
        omega
      · rw [if_neg hlen]
        rw [ih (buf ++ c) (Nat.not_lt.mp hlen)]
        simp only [List.length_append, List.flatten_cons, List.append_assoc]
        rw [Nat.add_assoc]

/-- C5: the streamed fetch aborts with `FetchFailure("html too large")`
(502) as soon as accumulated bytes exceed `MAX_HTML_BYTES`; every
successful read returns exactly the (at most `MAX_HTML_BYTES` bytes of)
body, and a successful fetch decodes that bounded buffer with the total
replacement decoder, which cannot raise. -/
theorem fetch_html_size_cap (chunks : List (List Nat)) :
    (chunks.flatten.length > MAX_HTML_BYTES →
      readBody chunks = .error ⟨502, "fetch failed: html too large"⟩) ∧
    (∀ buf, readBody chunks = .ok buf → buf = chunks.flatten ∧ buf.length ≤ MAX_HTML_BYTES) ∧
    (∀ decode html, fetch_html_body decode chunks = .ok html →
      html = pyStrip (decode chunks.flatten) ∧ chunks.flatten.length ≤ MAX_HTML_BYTES) := by
  have key := readBodyLoop_eq chunks [] (by simp)
  simp only [List.length_nil, Nat.zero_add, List.nil_append] at key
  have hbody : ∀ buf, readBody chunks = .ok buf →
      buf = chunks.flatten ∧ buf.length ≤ MAX_HTML_BYTES := by
    intro buf hok
    rw [readBody, key] at hok
    by_cases h : chunks.flatten.length > MAX_HTML_BYTES
    · rw [if_pos h] at hok; cases hok
    · rw [if_neg h] at hok
      cases hok
      exact ⟨rfl, Nat.not_lt.mp h⟩
  refine ⟨?_, hbody, ?_⟩
  · intro h
    rw [readBody, key, if_pos h]
  · intro decode html hok
    rw [fetch_html_body] at hok
    rcases hrb : readBody chunks with e | buf
    · rw [hrb] at hok; cases hok
    · rw [hrb] at hok
      simp only at hok
      rcases hbody buf hrb with ⟨rfl, hle⟩
      by_cases h : pyStrip (decode chunks.flatten) = []
      · rw [if_pos h] at hok; cases hok
      · rw [if_neg h] at hok
        cases hok
        exact ⟨rfl, hle⟩

/-- C5 witness: reading the chunks `[[0,1],[2]]` succeeds with the full
three-byte body, which is within the cap. -/
theorem fetch_html_size_cap_witness :
    ([0, 1, 2] : List Nat) = [[0, 1], [2]].flatten ∧
      ([0, 1, 2] : List Nat).length ≤ MAX_HTML_BYTES := by
  exact (fetch_html_size_cap [[0, 1], [2]]).2.1 [0, 1, 2] (by rfl)

/-- C4: the rendered fetch's outcome is returned when it succeeds; a
rendered-fetch 504 propagates immediately regardless of what the streamed
fetch would do; any other rendered-fetch failure (including an ordinary
exception such as playwright being unavailable) falls back to the
streamed fetch, whose result or error is returned. -/
theorem fetch_html_best_effort_spec (r s : Except PyErr String) :
    (∀ html, r = .ok html → fetch_html_best_effort r s = .ok html) ∧
    (∀ d, r = .error (.http ⟨504, d⟩) → fetch_html_best_effort r s = .error (.http ⟨504, d⟩)) ∧
    (∀ err, r = .error err → (∀ d, err ≠ .http ⟨504, d⟩) →
      fetch_html_best_effort r s = s) := by
  refine ⟨?_, ?_, ?_⟩
  · rintro html rfl; rfl
  · rintro d rfl; simp [fetch_html_best_effort]
  · rintro err rfl hne
    cases err with
    | http e =>
      rcases e with ⟨st, d⟩
      have : st ≠ 504 := by
        intro h; exact hne d (by rw [h])
      simp [fetch_html_best_effort, this]
    | exc m => rfl

/-- C4 witness: when the rendered fetch dies with a non-HTTP exception
(playwright unavailable), the streamed fetch's successful result is
returned; when it times out with 504, the timeout propagates even though
the streamed fetch would have succeeded. -/
theorem fetch_html_best_effort_spec_witness :
    fetch_html_best_effort (.error (.exc "playwright unavailable")) (.ok "<html>") =
      .ok "<html>" ∧
    fetch_html_best_effort (.error (.http ⟨504, "timeout"⟩)) (.ok "<html>") =
      .error (.http ⟨504, "timeout"⟩) := by
  constructor
  · exact (fetch_html_best_effort_spec (.error (.exc "playwright unavailable"))
      (.ok "<html>")).2.2 (.exc "playwright unavailable") rfl
      (fun d h => PyErr.noConfusion h)
  · exact (fetch_html_best_effort_spec (.error (.http ⟨504, "timeout"⟩))
      (.ok "<html>")).2.1 "timeout" rfl

/-! ## Theorems: C1, C2, C3 (URL validation) -/

/-- C2: a lower-cased host equal to `localhost` or ending in
`.localhost`/`.local` is always rejected with InvalidURL; a literal IP
host (with valid scheme, netloc, no userinfo) is accepted iff the address
is global, and rejected with InvalidURL otherwise. -/
theorem validate_localhost_and_literal_ip (w : NetWorld) (raw : String) (t : Int)
    (st0 : Option Int) :
    ((hOf w raw = "localhost" ∨ endsWithS (hOf w raw) ".localhost" ∨
        endsWithS (hOf w raw) ".local") →
      (validate_public_http_url w raw t st0).result = .error invalidUrl) ∧
    (((pOf w raw).scheme = "http" ∨ (pOf w raw).scheme = "https") →
      ¬((pOf w raw).netloc = "" ∨ pyTruthyOpt (pOf w raw).username ∨
          pyTruthyOpt (pOf w raw).password) →
      hOf w raw ≠ "" →
      ¬(hOf w raw = "localhost" ∨ endsWithS (hOf w raw) ".localhost" ∨
          endsWithS (hOf w raw) ".local") →
      w.ip_parses (hOf w raw) = true →
      ((validate_public_http_url w raw t st0).result = .ok (stripUrlCandidate raw) ↔
        w.is_global (hOf w raw) = true) ∧
      (w.is_global (hOf w raw) = false →
        (validate_public_http_url w raw t st0).result = .error invalidUrl)) := by
  simp only [hOf, pOf] at *
  constructor
  · intro hloc
    simp only [validate_public_http_url]
    split_ifs <;> rfl
  · intro hscheme hnetloc hne hloc hip
    simp only [validate_public_http_url]
    rw [if_neg (not_not_intro hscheme), if_neg hnetloc, if_neg hne, if_neg hloc]
    rcases hg : w.is_global (hostStr (w.urlparse (stripUrlCandidate raw))) with _ | _
    · have hpub : is_public_ip w (hostStr (w.urlparse (stripUrlCandidate raw))) = false := by
        simp [is_public_ip, hip, hg]
      rw [if_neg (by simp [hpub]), if_pos hip]
      exact ⟨⟨fun h => Except.noConfusion h, fun h => Bool.noConfusion h⟩, fun _ => rfl⟩
    · have hpub : is_public_ip w (hostStr (w.urlparse (stripUrlCandidate raw))) = true := by
        simp [is_public_ip, hip, hg]
      rw [if_pos hpub]
      exact ⟨⟨fun _ => rfl, fun _ => rfl⟩, fun h => Bool.noConfusion h⟩

/-- A concrete oracle world whose single URL parses to the literal IP
host `8.8.8.8`, which parses as a global address. -/
def ipOkWorld : NetWorld where
  urlparse := fun _ => ⟨"http", "8.8.8.8", none, none, some "8.8.8.8", none⟩
  ip_parses := fun s => s == "8.8.8.8"
  is_global := fun s => s == "8.8.8.8"
  getaddrinfo := fun _ _ => none

/-- A concrete oracle world whose single URL parses to the host
`localhost`. -/
def localhostWorld : NetWorld where
  urlparse := fun _ => ⟨"http", "localhost", none, none, some "localhost", none⟩
  ip_parses := fun _ => false
  is_global := fun _ => false
  getaddrinfo := fun _ _ => none

/-- C2 witness: the public literal-IP URL `http://8.8.8.8/` validates
successfully, and a `localhost` URL is rejected. -/
theorem validate_localhost_and_literal_ip_witness :
    (validate_public_http_url ipOkWorld "http://8.8.8.8/" 15 none).result =
      .ok "http://8.8.8.8/" ∧
    (validate_public_http_url localhostWorld "http://localhost/" 15 none).result =
      .error invalidUrl := by
  constructor
  · exact ((validate_localhost_and_literal_ip ipOkWorld "http://8.8.8.8/" 15 none).2
      (by decide) (by decide) (by decide) (by decide) (by decide)).1.mpr (by decide)
  · exact (validate_localhost_and_literal_ip localhostWorld
      "http://localhost/" 15 none).1 (by decide)

/-- The DNS phase alone: success iff resolution succeeded and every
resolved address is public (zero addresses pass vacuously); every failure
is InvalidURL. -/
theorem dnsResolveCheck_spec (w : NetWorld) (h : String) (port : Nat) (s : String) :
    (dnsResolveCheck w h port s = .ok s ↔
      ∃ l, w.getaddrinfo h port = some l ∧ ∀ ip ∈ l, is_public_ip w ip = true) ∧
    (dnsResolveCheck w h port s = .ok s ∨ dnsResolveCheck w h port s = .error invalidUrl) := by
  unfold dnsResolveCheck
  rcases w.getaddrinfo h port with _ | infos
  · refine ⟨⟨fun hok => Except.noConfusion hok, ?_⟩, .inr rfl⟩
    rintro ⟨l, hl, -⟩
    exact Option.noConfusion hl
  · simp only [addrinfoCheck]
    by_cases hany : infos.any (fun ip => !is_public_ip w ip) = true
    · rw [if_pos hany]
      refine ⟨⟨fun hok => Except.noConfusion hok, ?_⟩, .inr rfl⟩
      rintro ⟨l, hl, hall⟩
      injection hl with hl'
      subst hl'
      rcases List.any_eq_true.mp hany with ⟨ip, hmem, hbad⟩
      have hbad' : (!is_public_ip w ip) = true := hbad
      rw [hall ip hmem] at hbad'
      exact Bool.noConfusion hbad'
    · rw [if_neg hany]
      rw [Bool.not_eq_true] at hany
      refine ⟨⟨fun _ => ⟨infos, rfl, fun ip hmem => ?_⟩, fun _ => rfl⟩, .inl rfl⟩
      have hfalse := List.any_eq_false.mp hany ip hmem
      simpa using hfalse

/-- C1 (amended): for a domain-name host (with valid scheme, netloc, no
userinfo, host non-empty and not localhost-like), validation succeeds iff
`getaddrinfo` succeeds and every resolved address is public — a
resolution that succeeds with zero results is accepted vacuously — and
every failure is InvalidURL (422). -/
theorem validate_domain_dns (w : NetWorld) (raw : String) (t : Int) (st0 : Option Int) :
    ((pOf w raw).scheme = "http" ∨ (pOf w raw).scheme = "https") →
    ¬((pOf w raw).netloc = "" ∨ pyTruthyOpt (pOf w raw).username ∨
        pyTruthyOpt (pOf w raw).password) →
    hOf w raw ≠ "" →
    ¬(hOf w raw = "localhost" ∨ endsWithS (hOf w raw) ".localhost" ∨
        endsWithS (hOf w raw) ".local") →
    w.ip_parses (hOf w raw) = false →
    ((validate_public_http_url w raw t st0).result = .ok (stripUrlCandidate raw) ↔
      ∃ l, w.getaddrinfo (hOf w raw) (portOf (pOf w raw)) = some l ∧
        ∀ ip ∈ l, is_public_ip w ip = true) ∧
    ((validate_public_http_url w raw t st0).result = .ok (stripUrlCandidate raw) ∨
      (validate_public_http_url w raw t st0).result = .error invalidUrl) := by
  simp only [hOf, pOf] at *
  intro hscheme hnetloc hne hloc hip
  have hpub : is_public_ip w (hostStr (w.urlparse (stripUrlCandidate raw))) = false := by
    simp [is_public_ip, hip]
  simp only [validate_public_http_url]
  rw [if_neg (not_not_intro hscheme), if_neg hnetloc, if_neg hne, if_neg hloc,
    if_neg (by simp [hpub]), if_neg (by simp [hip])]
  exact dnsResolveCheck_spec w _ _ _

/-- A concrete oracle world for a domain host whose resolution yields a
single public address. -/
def dnsOkWorld : NetWorld where
  urlparse := fun _ => ⟨"http", "example.com", none, none, some "example.com", none⟩
  ip_parses := fun s => s == "93.184.216.34"
  is_global := fun s => s == "93.184.216.34"
  getaddrinfo := fun _ _ => some ["93.184.216.34"]

/-- C1 witness: a domain URL all of whose resolved addresses are public
validates successfully. -/
theorem validate_domain_dns_witness :
    (validate_public_http_url dnsOkWorld "http://example.com/" 15 none).result =
      .ok "http://example.com/" := by
  exact ((validate_domain_dns dnsOkWorld "http://example.com/" 15 none
      (by decide) (by decide) (by decide) (by decide) (by decide)).1).mpr
    ⟨["93.184.216.34"], rfl, by decide⟩

/-- A concrete oracle world for a domain host whose resolution succeeds
but yields zero addresses. -/
def dnsEmptyWorld : NetWorld where
  urlparse := fun _ => ⟨"http", "example.com", none, none, some "example.com", none⟩
  ip_parses := fun _ => false
  is_global := fun _ => false
  getaddrinfo := fun _ _ => some []

/-- C1 counterexample: with a DNS resolution that succeeds but produces
zero results, validation succeeds — it does not fail with InvalidURL as
the claim requires. -/
theorem validate_zero_results_cex :
    dnsEmptyWorld.getaddrinfo "example.com" 80 = some [] ∧
    (validate_public_http_url dnsEmptyWorld "http://example.com/" 15 none).result =
      .ok "http://example.com/" ∧
    (validate_public_http_url dnsEmptyWorld "http://example.com/" 15 none).result ≠
      .error invalidUrl := by
  refine ⟨rfl, by decide, by decide⟩

/-- C3 (amended): the socket default timeout is always restored to its
initial value by the `finally` block, on every path, success or failure;
during the DNS lookup — when one happens — it is temporarily set to
`min(3, timeout_s)`. -/
theorem validate_restores_socket_timeout (w : NetWorld) (raw : String) (t : Int)
    (st0 : Option Int) :
    (validate_public_http_url w raw t st0).socketTimeoutAfter = st0 ∧
    ((validate_public_http_url w raw t st0).timeoutDuringDns = none ∨
      (validate_public_http_url w raw t st0).timeoutDuringDns =
        some (some (dns_timeout_s t))) := by
  simp only [validate_public_http_url]
  split_ifs <;> simp

/-- C3 counterexample: validating a domain URL with the process-wide
socket default timeout initially unset (`None`) runs `getaddrinfo` with
the default timeout set to 3 — the global resolver state *is* mutated
during the DNS check. -/
theorem validate_mutates_timeout_during_dns_cex :
    (validate_public_http_url dnsOkWorld "http://example.com/" 15 none).timeoutDuringDns =
      some (some 3) ∧
    (validate_public_http_url dnsOkWorld "http://example.com/" 15 none).timeoutDuringDns ≠
      some (none : Option Int) := by
  refine ⟨by decide, by decide⟩

/-- C6: the effective timeout equals `min(60, clamp(requested, 1, 180))`
with the requested value defaulting to 15 when absent/unparseable; the
streamed fetch's connect-phase timeout is `min(5, effective)` and the DNS
check timeout is `min(3, effective)`. -/
theorem parse_timeout_s_spec (raw : Option Int) (t : Int) :
    parse_timeout_s raw 15 = min 60 (specClamp (raw.getD 15) 1 180) ∧
    connect_timeout_s t = min 5 t ∧
    dns_timeout_s t = min 3 t := by
  refine ⟨?_, rfl, rfl⟩
  unfold parse_timeout_s specClamp
  rfl

/-! ## Strip lemmas shared by the text-pipeline claims -/

/-- Python `lstrip` is the identity on a list whose first character is not
whitespace. -/
theorem pyLstrip_eq_self {l : List Char} (hh : ∀ c ∈ l.head?, pyWs c = false) :
    pyLstrip l = l := by
  cases l with
  | nil => rfl
  | cons a t =>
    have ha : pyWs a = false := hh a rfl
    simp [pyLstrip, List.dropWhile_cons, ha]

/-- Python `rstrip` is the identity on a list whose last character is not
whitespace. -/
theorem pyRstrip_eq_self {l : List Char} (hl : ∀ c ∈ l.getLast?, pyWs c = false) :
    pyRstrip l = l := by
  rw [pyRstrip, List.rdropWhile_eq_self_iff]
  intro hne
  have hmem : l.getLast hne ∈ l.getLast? := by
    rw [List.getLast?_eq_getLast l hne]
    rfl
  simp [hl _ hmem]

/-- Python `strip` is the identity on a list with non-whitespace first and last
characters. -/
theorem pyStrip_eq_self {l : List Char} (hh : ∀ c ∈ l.head?, pyWs c = false)
    (hl : ∀ c ∈ l.getLast?, pyWs c = false) : pyStrip l = l := by
  rw [pyStrip, pyLstrip_eq_self hh, pyRstrip_eq_self hl]

/-- Convenience form of `pyStrip_eq_self` for concrete head/last
characters. -/
theorem pyStrip_eq_self_of (l : List Char) (a b : Char) (ha : l.head? = some a)
    (hb : l.getLast? = some b) (hwa : pyWs a = false) (hwb : pyWs b = false) :
    pyStrip l = l := by
  apply pyStrip_eq_self
  · intro c hc
    rw [ha] at hc
    simp only [Option.mem_def, Option.some.injEq] at hc
    subst hc
    exact hwa
  · intro c hc
    rw [hb] at hc
    simp only [Option.mem_def, Option.some.injEq] at hc
    subst hc
    exact hwb

/-- Dropping whitespace from the right ignores an all-whitespace
suffix. -/
theorem rdropWhile_append_right (p : Char → Bool) (l m : List Char)
    (hm : ∀ x ∈ m, p x = true) : (l ++ m).rdropWhile p = l.rdropWhile p := by
  induction m using List.reverseRecOn with
  | nil => simp
  | append_singleton m x ih =>
    rw [← List.append_assoc, List.rdropWhile_concat_pos p _ x (hm x (by simp))]
    exact ih (fun y hy => hm y (by simp [hy]))

/-- A `dropWhile` fixed point stays a fixed point after `rdropWhile`. -/
theorem dropWhile_rdropWhile_of_eq_self {p : Char → Bool} {m : List Char}
    (h : m.dropWhile p = m) : (m.rdropWhile p).dropWhile p = m.rdropWhile p := by
  rcases hr : m.rdropWhile p with _ | ⟨a, t⟩
  · rfl
  · obtain ⟨u, hu⟩ := List.rdropWhile_prefix p m
    rw [hr] at hu
    have hm : m = a :: (t ++ u) := by
      rw [← hu]
      simp
    have ha : p a = false := by
      cases hpa : p a with
      | false => rfl
      | true =>
        rw [hm, List.dropWhile_cons, hpa] at h
        simp only [if_true] at h
        have hlen := (List.dropWhile_sublist (l := t ++ u) p).length_le
        rw [h] at hlen
        simp at hlen
    rw [List.dropWhile_cons, ha]
    simp

/-- Python `strip` is idempotent. -/
theorem pyStrip_idem (l : List Char) : pyStrip (pyStrip l) = pyStrip l := by
  show ((((l.dropWhile pyWs).rdropWhile pyWs).dropWhile pyWs).rdropWhile pyWs)
      = (l.dropWhile pyWs).rdropWhile pyWs
  rw [dropWhile_rdropWhile_of_eq_self (List.dropWhile_idempotent pyWs l),
    List.rdropWhile_idempotent]

/-! ## Theorems: C7, C8 (`_apply_limits`) -/

/-- An input on which a second `_apply_limits` differs from the first:
11997 letters `a`, three spaces, one `b` — 12001 characters, so the
truncation cut lands on the spaces, the right-strip shortens the
pre-marker text to 11997 characters, and the truncated result (12008
characters) still exceeds the cap. -/
def truncCexInput : List Char := List.replicate 11997 'a' ++ [' ', ' ', ' ', 'b']

theorem apply_limits_truncCexInput :
    apply_limits truncCexInput = List.replicate 11997 'a' ++ TRUNC_MARKER := by
  have hhead : truncCexInput.head? = some 'a' := by
    rw [truncCexInput, show (11997 : Nat) = 11996 + 1 from rfl, List.replicate_succ,
      List.cons_append]
    rfl
  have hlast : truncCexInput.getLast? = some 'b' := by
    rw [truncCexInput,
      show ([' ', ' ', ' ', 'b'] : List Char) = [' ', ' ', ' '] ++ ['b'] from rfl,
      ← List.append_assoc, List.getLast?_concat]
  have hstrip : pyStrip truncCexInput = truncCexInput :=
    pyStrip_eq_self_of _ 'a' 'b' hhead hlast (by decide) (by decide)
  have hlen : truncCexInput.length = 12001 := by
    rw [truncCexInput, List.length_append, List.length_replicate]
    rfl
  have htake : truncCexInput.take 12000 = List.replicate 11997 'a' ++ [' ', ' ', ' '] := by
    rw [truncCexInput, List.take_append_eq_append_take,
      List.take_of_length_le (by rw [List.length_replicate]; omega), List.length_replicate]
    rfl
  have hrstrip : pyRstrip (List.replicate 11997 'a' ++ [' ', ' ', ' ']) =
      List.replicate 11997 'a' := by
    rw [pyRstrip, rdropWhile_append_right pyWs _ _ (by decide)]
    conv_lhs => rw [show (11997 : Nat) = 11996 + 1 from rfl, List.replicate_succ']
    rw [List.rdropWhile_concat_neg pyWs _ 'a' (by decide), ← List.replicate_succ']
  rw [apply_limits, hstrip, hlen, if_pos (by omega), htake, hrstrip]

theorem apply_limits_truncCexMid :
    apply_limits (List.replicate 11997 'a' ++ TRUNC_MARKER) =
      (List.replicate 11997 'a' ++ ['\n', '\n', '（']) ++ TRUNC_MARKER := by
  have hhead : (List.replicate 11997 'a' ++ TRUNC_MARKER).head? = some 'a' := by
    rw [show (11997 : Nat) = 11996 + 1 from rfl, List.replicate_succ, List.cons_append]
    rfl
  have hlast : (List.replicate 11997 'a' ++ TRUNC_MARKER).getLast? = some '）' := by
    rw [show TRUNC_MARKER =
        ['\n', '\n', '（', '内', '容', '过', '长', '已', '截', '断'] ++ ['）'] from rfl,
      ← List.append_assoc, List.getLast?_concat]
  have hstrip : pyStrip (List.replicate 11997 'a' ++ TRUNC_MARKER) =
      List.replicate 11997 'a' ++ TRUNC_MARKER :=
    pyStrip_eq_self_of _ 'a' '）' hhead hlast (by decide) (by decide)
  have hlen : (List.replicate 11997 'a' ++ TRUNC_MARKER).length = 12008 := by
    rw [List.length_append, List.length_replicate]
    rfl
  have htake : (List.replicate 11997 'a' ++ TRUNC_MARKER).take 12000 =
      List.replicate 11997 'a' ++ ['\n', '\n', '（'] := by
    rw [List.take_append_eq_append_take,
      List.take_of_length_le (by rw [List.length_replicate]; omega), List.length_replicate]
    rfl
  have hrstrip : pyRstrip (List.replicate 11997 'a' ++ ['\n', '\n', '（']) =
      List.replicate 11997 'a' ++ ['\n', '\n', '（'] := by
    rw [show (List.replicate 11997 'a' ++ ['\n', '\n', '（'] : List Char) =
        (List.replicate 11997 'a' ++ ['\n', '\n']) ++ ['（'] from
        (List.append_assoc (List.replicate 11997 'a') ['\n', '\n'] ['（']).symm,
      pyRstrip, List.rdropWhile_concat_neg pyWs _ '（' (by decide), List.append_assoc]
  rw [apply_limits, hstrip, hlen, if_pos (by omega), htake, hrstrip]

/-- C7 counterexample: `_apply_limits` is *not* idempotent on its own
output.  On `truncCexInput` the first application yields 11997 `a`s plus
the marker (12008 characters); re-applying truncates again at 12000,
cutting three characters into the old marker, and appends a second
marker, yielding a different, longer string. -/
theorem apply_limits_not_idempotent_cex :
    apply_limits (apply_limits truncCexInput) ≠ apply_limits truncCexInput := by
  rw [apply_limits_truncCexInput, apply_limits_truncCexMid]
  intro h
  have hlen := congrArg List.length h
  simp only [List.length_append, List.length_replicate, List.length_cons,
    List.length_nil] at hlen
  omega

/-- C7 (amended): the output of `_apply_limits` never exceeds the
12000-character cap plus the appended marker's length (11, blank-line
separator included), and `_apply_limits` is idempotent on every input
whose stripped form fits the cap — but not, as `truncCexInput` shows, on
every already-truncated text. -/
theorem apply_limits_bounds (t : List Char) :
    (apply_limits t).length ≤ 12000 + TRUNC_MARKER.length ∧
    ((pyStrip t).length ≤ 12000 → apply_limits (apply_limits t) = apply_limits t) := by
  constructor
  · by_cases h : (pyStrip t).length > 12000
    · rw [apply_limits, if_pos h, List.length_append]
      have hpfx := List.rdropWhile_prefix pyWs ((pyStrip t).take 12000)
      have h1 : (pyRstrip ((pyStrip t).take 12000)).length ≤
          ((pyStrip t).take 12000).length := hpfx.length_le
      have h2 : ((pyStrip t).take 12000).length ≤ 12000 := by
        rw [List.length_take]
        omega
      omega
    · rw [apply_limits, if_neg h]
      omega
  · intro hle
    have h : ¬((pyStrip t).length > 12000) := by omega
    simp only [apply_limits]
    rw [if_neg h, pyStrip_idem, if_neg h]

/-- C7 witness: on the short input `"a"` a second application of
`_apply_limits` changes nothing. -/
theorem apply_limits_bounds_witness :
    apply_limits (apply_limits ['a']) = apply_limits ['a'] :=
  (apply_limits_bounds ['a']).2 (by decide)

/-- An input on which the truncated text is not the first 12000
characters followed by the marker: 11999 `a`s, a space, then two `b`s.
The 12000th character is the space, which the right-strip removes. -/
def capCexInput : List Char := List.replicate 11999 'a' ++ [' ', 'b', 'b']

theorem apply_limits_capCexInput :
    apply_limits capCexInput = List.replicate 11999 'a' ++ TRUNC_MARKER := by
  have hhead : capCexInput.head? = some 'a' := by
    rw [capCexInput, show (11999 : Nat) = 11998 + 1 from rfl, List.replicate_succ,
      List.cons_append]
    rfl
  have hlast : capCexInput.getLast? = some 'b' := by
    rw [capCexInput, show ([' ', 'b', 'b'] : List Char) = [' ', 'b'] ++ ['b'] from rfl,
      ← List.append_assoc, List.getLast?_concat]
  have hstrip : pyStrip capCexInput = capCexInput :=
    pyStrip_eq_self_of _ 'a' 'b' hhead hlast (by decide) (by decide)
  have hlen : capCexInput.length = 12002 := by
    rw [capCexInput, List.length_append, List.length_replicate]
    rfl
  have htake : capCexInput.take 12000 = List.replicate 11999 'a' ++ [' '] := by
    rw [capCexInput, List.take_append_eq_append_take,
      List.take_of_length_le (by rw [List.length_replicate]; omega), List.length_replicate]
    rfl
  have hrstrip : pyRstrip (List.replicate 11999 'a' ++ [' ']) =
      List.replicate 11999 'a' := by
    rw [pyRstrip, rdropWhile_append_right pyWs _ _ (by decide)]
    conv_lhs => rw [show (11999 : Nat) = 11998 + 1 from rfl, List.replicate_succ']
    rw [List.rdropWhile_concat_neg pyWs _ 'a' (by decide), ← List.replicate_succ']
  rw [apply_limits, hstrip, hlen, if_pos (by omega), htake, hrstrip]

/-- C8 counterexample: `capCexInput` has 12002 characters (and is already
stripped), yet the capped text is not the first 12000 characters followed
by the marker — the right-strip inside `_apply_limits` removes the
trailing space of the 12000-character prefix first. -/
theorem apply_limits_first12000_cex :
    capCexInput.length > 12000 ∧
    pyStrip capCexInput = capCexInput ∧
    apply_limits capCexInput ≠ capCexInput.take 12000 ++ TRUNC_MARKER := by
  refine ⟨by rw [capCexInput, List.length_append, List.length_replicate]; decide, ?_, ?_⟩
  · exact pyStrip_eq_self_of _ 'a' 'b'
      (by rw [capCexInput, show (11999 : Nat) = 11998 + 1 from rfl, List.replicate_succ,
        List.cons_append]; rfl)
      (by rw [capCexInput, show ([' ', 'b', 'b'] : List Char) = [' ', 'b'] ++ ['b'] from rfl,
        ← List.append_assoc, List.getLast?_concat])
      (by decide) (by decide)
  · rw [apply_limits_capCexInput]
    intro h
    have hlen := congrArg List.length h
    rw [capCexInput] at hlen
    simp only [List.length_append, List.length_replicate, List.length_take,
      List.length_cons, List.length_nil] at hlen
    have hm : TRUNC_MARKER.length = 11 := rfl
    rw [hm] at hlen
    omega

/-- C8 (amended): for every body text whose stripped form exceeds 12000
characters, the capped text is the *right-stripped* first 12000
characters of the stripped text, followed by the truncation marker on
its own paragraph; the pre-marker part never exceeds 12000 characters. -/
theorem apply_limits_truncation_shape (t : List Char)
    (h : (pyStrip t).length > 12000) :
    apply_limits t = pyRstrip ((pyStrip t).take 12000) ++ TRUNC_MARKER ∧
    (pyRstrip ((pyStrip t).take 12000)).length ≤ 12000 := by
  constructor
  · rw [apply_limits, if_pos h]
  · have hpfx := List.rdropWhile_prefix pyWs ((pyStrip t).take 12000)
    have h1 : (pyRstrip ((pyStrip t).take 12000)).length ≤
        ((pyStrip t).take 12000).length := hpfx.length_le
    have h2 : ((pyStrip t).take 12000).length ≤ 12000 := by
      rw [List.length_take]
      omega
    omega

/-- C8 witness: truncating 12001 `a`s yields the first 12000 of them
followed by the marker. -/
theorem apply_limits_truncation_shape_witness :
    apply_limits (List.replicate 12001 'a') =
      pyRstrip ((pyStrip (List.replicate 12001 'a')).take 12000) ++ TRUNC_MARKER := by
  refine (apply_limits_truncation_shape _ ?_).1
  have hstrip : pyStrip (List.replicate 12001 'a') = List.replicate 12001 'a' :=
    pyStrip_eq_self_of _ 'a' 'a'
      (by rw [show (12001 : Nat) = 12000 + 1 from rfl, List.replicate_succ]; rfl)
      (by rw [show (12001 : Nat) = 12000 + 1 from rfl, List.replicate_succ',
        List.getLast?_concat])
      (by decide) (by decide)
  rw [hstrip, List.length_replicate]
  omega

/-! ## Theorems: C9 (`_dedupe_blocks` is idempotent)

The proof characterises the blocks kept by the loop — non-empty, stripped,
with pairwise-distinct non-empty keys and no embedded `"\n\n"` — and shows
that splitting the joined output recovers exactly those blocks, so the
second pass keeps everything. -/

theorem consHead_ne_nil (c : Char) (L : List (List Char)) : consHead c L ≠ [] := by
  cases L <;> simp [consHead]

theorem splitOn2NL_ne_nil (t : List Char) : splitOn2NL t ≠ [] := by
  induction t using splitOn2NL.induct with
  | case1 => simp [splitOn2NL]
  | case2 c => simp [splitOn2NL]
  | case3 c d rest hcd ih =>
    rw [splitOn2NL, if_pos hcd]
    simp
  | case4 c d rest hcd ih =>
    rw [splitOn2NL, if_neg hcd]
    exact consHead_ne_nil c _

/-- The first segment of a split is empty or starts with the first
character of the input. -/
theorem splitOn2NL_head (t : List Char) :
    ∃ s ss, splitOn2NL t = s :: ss ∧ (s = [] ∨ s.head? = t.head?) := by
  match t with
  | [] => exact ⟨[], [], rfl, .inl rfl⟩
  | [c] => exact ⟨[c], [], rfl, .inr rfl⟩
  | c :: d :: rest =>
    by_cases hcd : c = '\n' ∧ d = '\n'
    · exact ⟨[], splitOn2NL rest, by rw [splitOn2NL, if_pos hcd], .inl rfl⟩
    · rcases hsplit : splitOn2NL (d :: rest) with _ | ⟨s0, ss0⟩
      · exact absurd hsplit (splitOn2NL_ne_nil _)
      · refine ⟨c :: s0, ss0, ?_, .inr rfl⟩
        rw [splitOn2NL, if_neg hcd, hsplit]
        rfl

/-- No segment produced by the split contains the separator. -/
theorem splitOn2NL_no_sep (t : List Char) :
    ∀ s ∈ splitOn2NL t, ¬ (['\n', '\n'] <:+: s) := by
  induction t using splitOn2NL.induct with
  | case1 =>
    intro s hs
    simp only [splitOn2NL, List.mem_singleton] at hs
    subst hs
    intro h
    have := h.length_le
    simp at this
  | case2 c =>
    intro s hs
    simp only [splitOn2NL, List.mem_singleton] at hs
    subst hs
    intro h
    have := h.length_le
    simp at this
  | case3 c d rest hcd ih =>
    intro s hs
    rw [splitOn2NL, if_pos hcd] at hs
    rcases List.mem_cons.mp hs with rfl | hs2
    · intro h
      have := h.length_le
      simp at this
    · exact ih s hs2
  | case4 c d rest hcd ih =>
    intro s hs
    rw [splitOn2NL, if_neg hcd] at hs
    rcases hsplit : splitOn2NL (d :: rest) with _ | ⟨s0, ss0⟩
    · exact absurd hsplit (splitOn2NL_ne_nil _)
    · rw [hsplit, consHead] at hs
      rcases List.mem_cons.mp hs with rfl | hs2
      · intro h
        rcases List.infix_cons_iff.mp h with hpre | hin
        · rcases List.cons_prefix_cons.mp hpre with ⟨hc, h1⟩
          obtain ⟨s1, ss1, heq, hhead⟩ := splitOn2NL_head (d :: rest)
          rw [hsplit] at heq
          injection heq with h2 h3
          subst h2
          rcases hhead with rfl | hh
          · have := h1.length_le
            simp at this
          · rcases s0 with _ | ⟨e, s0t⟩
            · have := h1.length_le
              simp at this
            · rcases List.cons_prefix_cons.mp h1 with ⟨he, -⟩
              simp only [List.head?_cons, Option.some.injEq] at hh
              exact hcd ⟨hc.symm, by rw [← hh, ← he]⟩
        · exact ih s0 (by rw [hsplit]; exact List.mem_cons_self s0 ss0) hin
      · exact ih s (by rw [hsplit]; exact List.mem_cons_of_mem s0 hs2)

/-- A block without the separator splits to itself. -/
theorem splitOn2NL_no_sep_single {b : List Char} (hb : ¬ (['\n', '\n'] <:+: b)) :
    splitOn2NL b = [b] := by
  induction b using splitOn2NL.induct with
  | case1 => rfl
  | case2 c => rfl
  | case3 c d rest hcd ih =>
    exfalso
    rcases hcd with ⟨rfl, rfl⟩
    exact hb ⟨[], rest, rfl⟩
  | case4 c d rest hcd ih =>
    have hbtail : ¬ (['\n', '\n'] <:+: (d :: rest)) := fun h =>
      hb (h.trans (List.suffix_cons c (d :: rest)).isInfix)
    rw [splitOn2NL, if_neg hcd, ih hbtail]
    rfl

/-- Splitting `b ++ "\n\n" ++ t` peels off `b` when `b` has no separator
inside and does not end in a newline. -/
theorem splitOn2NL_append (t : List Char) :
    ∀ b : List Char, ¬ (['\n', '\n'] <:+: b) → b.getLast? ≠ some '\n' →
    splitOn2NL (b ++ '\n' :: '\n' :: t) = b :: splitOn2NL t := by
  intro b
  induction b with
  | nil =>
    intro _ _
    rw [List.nil_append, splitOn2NL, if_pos ⟨rfl, rfl⟩]
  | cons c b2 ih =>
    intro hb hlast
    rcases b2 with _ | ⟨e, b3⟩
    · have hc : c ≠ '\n' := by
        intro h
        subst h
        exact hlast rfl
      rw [List.cons_append, List.nil_append, splitOn2NL,
        if_neg (fun h => hc h.1), splitOn2NL, if_pos ⟨rfl, rfl⟩]
      rfl
    · have hcd : ¬(c = '\n' ∧ e = '\n') := by
        rintro ⟨rfl, rfl⟩
        exact hb ⟨[], b3, rfl⟩
      have htail := ih (fun h => hb (h.trans (List.suffix_cons c (e :: b3)).isInfix))
        (fun h => hlast (List.getLast?_cons_cons.trans h))
      rw [List.cons_append, List.cons_append, splitOn2NL, if_neg hcd]
      rw [List.cons_append] at htail
      rw [htail]
      rfl

/-- Splitting the `"\n\n"`-join of suitable blocks recovers the blocks. -/
theorem splitOn2NL_join2NL (bs : List (List Char)) (hne : bs ≠ [])
    (hprops : ∀ b ∈ bs, ¬ (['\n', '\n'] <:+: b) ∧ b.getLast? ≠ some '\n') :
    splitOn2NL (join2NL bs) = bs := by
  induction bs with
  | nil => exact absurd rfl hne
  | cons b bs ih =>
    rcases bs with _ | ⟨b2, bs2⟩
    · have hj : join2NL [b] = b := rfl
      rw [hj, splitOn2NL_no_sep_single (hprops b (List.mem_cons_self b _)).1]
    · have hj : join2NL (b :: b2 :: bs2) = b ++ '\n' :: '\n' :: join2NL (b2 :: bs2) := rfl
      rw [hj, splitOn2NL_append _ _ (hprops b (List.mem_cons_self b _)).1
        (hprops b (List.mem_cons_self b _)).2,
        ih (by simp) (fun x hx => hprops x (List.mem_cons_of_mem b hx))]

end ExtractService

namespace ExtractService

/-- The loop keeps every block when all keys are fresh, non-empty and
pairwise distinct. -/
theorem dedupeLoop_keeps (bs : List (List Char)) :
    ∀ seen acc, (∀ b ∈ bs, b ≠ [] ∧ blockKey b ≠ [] ∧ blockKey b ∉ seen) →
    (bs.map blockKey).Nodup →
    dedupeLoop seen acc bs = acc.reverse ++ bs := by
  induction bs with
  | nil =>
    intro seen acc _ _
    rw [dedupeLoop]
    simp
  | cons b bs ih =>
    intro seen acc hprops hnodup
    obtain ⟨hbne, hkne, hkns⟩ := hprops b (List.mem_cons_self b _)
    have hrest : ∀ x ∈ bs, x ≠ [] ∧ blockKey x ≠ [] ∧
        blockKey x ∉ (blockKey b :: seen) := by
      intro x hx
      obtain ⟨h1, h2, h3⟩ := hprops x (List.mem_cons_of_mem b hx)
      refine ⟨h1, h2, fun hmem => ?_⟩
      rcases List.mem_cons.mp hmem with heq | hseen
      · exact (List.nodup_cons.mp hnodup).1 (heq ▸ List.mem_map_of_mem blockKey hx)
      · exact h3 hseen
    rw [dedupeLoop, if_neg hbne,
      if_neg (by push_neg; exact ⟨hkne, hkns⟩),
      ih _ _ hrest (List.nodup_cons.mp hnodup).2]
    simp

/-- Everything the loop emits comes from the input (or accumulator) and
passed the non-empty block/key guards. -/
theorem dedupeLoop_mem (bs : List (List Char)) :
    ∀ seen acc b, b ∈ dedupeLoop seen acc bs →
      b ∈ acc ∨ (b ∈ bs ∧ b ≠ [] ∧ blockKey b ≠ []) := by
  induction bs with
  | nil =>
    intro seen acc b hb
    rw [dedupeLoop] at hb
    exact .inl (List.mem_reverse.mp hb)
  | cons c cs ih =>
    intro seen acc b hb
    rw [dedupeLoop] at hb
    by_cases hc : c = []
    · rw [if_pos hc] at hb
      rcases ih _ _ _ hb with h | ⟨h1, h2, h3⟩
      · exact .inl h
      · exact .inr ⟨List.mem_cons_of_mem c h1, h2, h3⟩
    · rw [if_neg hc] at hb
      by_cases hk : blockKey c = [] ∨ blockKey c ∈ seen
      · rw [if_pos hk] at hb
        rcases ih _ _ _ hb with h | ⟨h1, h2, h3⟩
        · exact .inl h
        · exact .inr ⟨List.mem_cons_of_mem c h1, h2, h3⟩
      · rw [if_neg hk] at hb
        push_neg at hk
        rcases ih _ _ _ hb with h | ⟨h1, h2, h3⟩
        · rcases List.mem_cons.mp h with rfl | h2
          · exact .inr ⟨List.mem_cons_self _ _, hc, hk.1⟩
          · exact .inl h2
        · exact .inr ⟨List.mem_cons_of_mem c h1, h2, h3⟩

/-- The keys of the kept blocks are pairwise distinct. -/
theorem dedupeLoop_keys_nodup (bs : List (List Char)) :
    ∀ seen acc, ((acc.map blockKey).Nodup) → (∀ b ∈ acc, blockKey b ∈ seen) →
    ((dedupeLoop seen acc bs).map blockKey).Nodup := by
  induction bs with
  | nil =>
    intro seen acc hnd _
    rw [dedupeLoop, List.map_reverse]
    exact List.nodup_reverse.mpr hnd
  | cons c cs ih =>
    intro seen acc hnd hsub
    rw [dedupeLoop]
    by_cases hc : c = []
    · rw [if_pos hc]
      exact ih _ _ hnd hsub
    · rw [if_neg hc]
      by_cases hk : blockKey c = [] ∨ blockKey c ∈ seen
      · rw [if_pos hk]
        exact ih _ _ hnd hsub
      · rw [if_neg hk]
        push_neg at hk
        apply ih
        · rw [List.map_cons, List.nodup_cons]
          refine ⟨fun hmem => ?_, hnd⟩
          rcases List.mem_map.mp hmem with ⟨x, hx, hxk⟩
          exact hk.2 (hxk ▸ hsub x hx)
        · intro b hb
          rcases List.mem_cons.mp hb with rfl | hb2
          · exact List.mem_cons_self _ _
          · exact List.mem_cons_of_mem _ (hsub b hb2)

/-- A fixed point of `strip` is a fixed point of both one-sided strips. -/
theorem strip_fix_parts {l : List Char} (h : pyStrip l = l) :
    pyLstrip l = l ∧ pyRstrip l = l := by
  have h1 : List.Sublist (pyLstrip l) l := List.dropWhile_sublist pyWs
  have h1l : (pyLstrip l).length ≤ l.length := h1.length_le
  have hpfx := List.rdropWhile_prefix pyWs (pyLstrip l)
  have h2 : (pyRstrip (pyLstrip l)).length ≤ (pyLstrip l).length := hpfx.length_le
  have hlen : l.length ≤ (pyRstrip (pyLstrip l)).length := by
    have hh : pyRstrip (pyLstrip l) = l := h
    rw [hh]
  have hls : pyLstrip l = l := h1.eq_of_length (by omega)
  refine ⟨hls, ?_⟩
  rw [pyStrip, hls] at h
  exact h

/-- A non-empty fixed point of `strip` starts with a non-whitespace
character. -/
theorem head_not_ws_of_stripped {l : List Char} (h : pyStrip l = l) :
    ∀ c ∈ l.head?, pyWs c = false := by
  have hls := (strip_fix_parts h).1
  intro c hc
  cases l with
  | nil => simp at hc
  | cons a t =>
    simp only [List.head?_cons, Option.mem_def, Option.some.injEq] at hc
    subst hc
    cases hpa : pyWs a with
    | false => rfl
    | true =>
      exfalso
      rw [pyLstrip, List.dropWhile_cons, hpa] at hls
      simp only [if_true] at hls
      have hsub := (List.dropWhile_sublist (l := t) pyWs).length_le
      rw [hls] at hsub
      simp only [List.length_cons] at hsub
      omega

/-- A non-empty fixed point of `strip` ends with a non-whitespace
character. -/
theorem getLast_not_ws_of_stripped {l : List Char} (h : pyStrip l = l) :
    ∀ c ∈ l.getLast?, pyWs c = false := by
  have hrs := (strip_fix_parts h).2
  intro c hc
  have hne : l ≠ [] := by
    intro h0
    subst h0
    simp at hc
  rw [pyRstrip, List.rdropWhile_eq_self_iff] at hrs
  have hnot := hrs hne
  rw [List.getLast?_eq_getLast l hne] at hc
  simp only [Option.mem_def, Option.some.injEq] at hc
  subst hc
  simpa using hnot

/-- Python `strip` returns an infix of its input. -/
theorem pyStrip_infix_self (l : List Char) : pyStrip l <:+: l := by
  have h1 : pyRstrip (pyLstrip l) <+: pyLstrip l := List.rdropWhile_prefix pyWs (pyLstrip l)
  have h2 : pyLstrip l <:+ l := List.dropWhile_suffix pyWs
  exact h1.isInfix.trans h2.isInfix

/-- The head of a `"\n\n"`-join is the head of its first (non-empty)
block. -/
theorem join2NL_head (bs : List (List Char)) {b : List Char} (hb : b ≠ []) :
    (join2NL (b :: bs)).head? = b.head? := by
  rcases b with _ | ⟨c, b2⟩
  · exact absurd rfl hb
  · rcases bs with _ | ⟨b2, bs2⟩ <;> rfl

/-- The last element of a `"\n\n"`-join is the last element of one of
its (non-empty) blocks. -/
theorem join2NL_getLast (bs : List (List Char)) (hne : bs ≠ [])
    (hb : ∀ b ∈ bs, b ≠ []) : ∃ bl ∈ bs, (join2NL bs).getLast? = bl.getLast? := by
  induction bs with
  | nil => exact absurd rfl hne
  | cons b bs ih =>
    rcases bs with _ | ⟨b2, bs2⟩
    · exact ⟨b, List.mem_cons_self _ _, rfl⟩
    · obtain ⟨bl, hbl, hlast⟩ := ih (by simp)
        (fun x hx => hb x (List.mem_cons_of_mem _ hx))
      refine ⟨bl, List.mem_cons_of_mem _ hbl, ?_⟩
      have hblne : bl ≠ [] := hb bl (List.mem_cons_of_mem _ hbl)
      have hJne : join2NL (b2 :: bs2) ≠ [] := by
        intro h0
        rw [h0, List.getLast?_eq_getLast bl hblne] at hlast
        exact Option.noConfusion hlast
      have hj : join2NL (b :: b2 :: bs2) = b ++ '\n' :: '\n' :: join2NL (b2 :: bs2) := rfl
      rcases hJ : join2NL (b2 :: bs2) with _ | ⟨x, J2⟩
      · exact absurd hJ hJne
      · rw [hj, hJ, List.getLast?_append, List.getLast?_cons_cons,
          List.getLast?_cons_cons, ← hJ, hlast, List.getLast?_eq_getLast bl hblne]
        simp [Option.or]

/-- A `"\n\n"`-join of non-empty stripped blocks is already stripped. -/
theorem pyStrip_join2NL {bs : List (List Char)}
    (hne : ∀ b ∈ bs, b ≠ []) (hs : ∀ b ∈ bs, pyStrip b = b) :
    pyStrip (join2NL bs) = join2NL bs := by
  rcases bs with _ | ⟨b, bs2⟩
  · rfl
  · apply pyStrip_eq_self
    · rw [join2NL_head bs2 (hne b (List.mem_cons_self _ _))]
      exact head_not_ws_of_stripped (hs b (List.mem_cons_self _ _))
    · obtain ⟨bl, hbl, hlast⟩ := join2NL_getLast (b :: bs2) (by simp) hne
      rw [hlast]
      exact getLast_not_ws_of_stripped (hs bl hbl)

/-- Every block kept by the first pass is non-empty, stripped, has a
non-empty key, contains no separator, and does not end in a newline; and
the kept keys are pairwise distinct. -/
theorem dedupe_out_props (text : List Char) :
    (∀ b ∈ dedupeLoop [] [] ((splitOn2NL text).map pyStrip),
      pyStrip b = b ∧ b ≠ [] ∧ blockKey b ≠ [] ∧ ¬ (['\n', '\n'] <:+: b) ∧
      b.getLast? ≠ some '\n') ∧
    ((dedupeLoop [] [] ((splitOn2NL text).map pyStrip)).map blockKey).Nodup := by
  constructor
  · intro b hb
    have hmem : b ∈ (splitOn2NL text).map pyStrip ∧ b ≠ [] ∧ blockKey b ≠ [] := by
      rcases dedupeLoop_mem _ _ _ b hb with h | h
      · simp at h
      · exact h
    rcases List.mem_map.mp hmem.1 with ⟨b0, hb0, rfl⟩
    have hstr : pyStrip (pyStrip b0) = pyStrip b0 := pyStrip_idem b0
    refine ⟨hstr, hmem.2.1, hmem.2.2, ?_, ?_⟩
    · intro hinf
      exact splitOn2NL_no_sep text b0 hb0 (hinf.trans (pyStrip_infix_self b0))
    · intro hl
      have := getLast_not_ws_of_stripped hstr '\n' (by rw [hl]; rfl)
      exact absurd this (by decide)
  · exact dedupeLoop_keys_nodup _ [] [] (by simp) (by simp)

/-- The final `strip` of `_dedupe_blocks` is a no-op: the first pass
already produces a stripped join. -/
theorem dedupe_first_eq (text : List Char) :
    dedupe_blocks text =
      join2NL (dedupeLoop [] [] ((splitOn2NL text).map pyStrip)) := by
  rw [dedupe_blocks]
  apply pyStrip_join2NL
  · intro b hb
    exact ((dedupe_out_props text).1 b hb).2.1
  · intro b hb
    exact ((dedupe_out_props text).1 b hb).1

/-- C9: block deduplication is idempotent — `_dedupe_blocks` applied to
its own output returns that output unchanged, for every input text. -/
theorem dedupe_blocks_idem (text : List Char) :
    dedupe_blocks (dedupe_blocks text) = dedupe_blocks text := by
  rw [dedupe_first_eq text]
  rcases hcase : dedupeLoop [] [] ((splitOn2NL text).map pyStrip) with _ | ⟨b1, out2⟩
  · rfl
  · have hprops := (dedupe_out_props text).1
    have hkeys := (dedupe_out_props text).2
    rw [hcase] at hprops hkeys
    have hmapid : List.map pyStrip (b1 :: out2) = b1 :: out2 := by
      have hid : ∀ b ∈ b1 :: out2, pyStrip b = id b := fun b hb => (hprops b hb).1
      rw [List.map_congr_left hid, List.map_id]
    rw [dedupe_blocks,
      splitOn2NL_join2NL (b1 :: out2) (by simp)
        (fun b hb => ⟨(hprops b hb).2.2.2.1, (hprops b hb).2.2.2.2⟩),
      hmapid,
      dedupeLoop_keeps (b1 :: out2) [] []
        (fun b hb => ⟨(hprops b hb).2.1, (hprops b hb).2.2.1, List.not_mem_nil _⟩)
        hkeys]
    simp only [List.reverse_nil, List.nil_append]
    exact pyStrip_join2NL (fun b hb => (hprops b hb).2.1) (fun b hb => (hprops b hb).1)

end ExtractService
